import Mathlib

/-!
Verification of the client-side logic of the valentines-book single-page
application (src/App.jsx, src/Auth.jsx, src/main.jsx).  The definitions below
are shallow embeddings of the JavaScript source: JS objects used as
string-keyed maps become association lists, `undefined`-able values become
`Option`, and the React effect/timer machinery of the journal editor becomes
an explicit state machine over discrete time (milliseconds as naturals).
-/

namespace ValentinesBook

/-! ## JS object-as-map helpers

`journalCache` is a plain JS object keyed by date strings; reading a missing
key yields `undefined` (here `none`), and `{ ...prev, [k]: v }` replaces the
binding for `k`. -/

/-- Reading `obj[k]` from a JS object modeled as an association list. -/
def lookupJs (cache : List (String × String)) (k : String) : Option String :=
  match cache with
  | [] => none
  | (k₀, v₀) :: rest => if k₀ = k then some v₀ else lookupJs rest k

/-- The spread-update `{ ...prev, [k]: v }`: binds `k` to `v`, keeps other keys. -/
def insertJs (k v : String) (cache : List (String × String)) : List (String × String) :=
  match cache with
  | [] => [(k, v)]
  | (k₀, v₀) :: rest => if k₀ = k then (k, v) :: rest else (k₀, v₀) :: insertJs k v rest

/-- `res.data.content || ''` : an absent (`undefined`) field becomes the empty
string; a present string is kept (the empty string maps to itself). -/
def jsOrEmpty (o : Option String) : String := o.getD ""

/-- JS falsiness of a `string | undefined` value: `undefined` and `''` are
falsy, every other string is truthy. -/
def jsFalsyStr (o : Option String) : Bool :=
  match o with
  | none => true
  | some s => s = ""

/-! ## Registration (src/Auth.jsx, handleRegister)

`handleRegister` checks the PIN before any network call:
`if (pin !== '4266' && pin !== '1608') { setError(...); return; }` and only
then issues `POST /api/auth/register` with `{ username, password, pin }`. -/

/-- Observable outcome of submitting the registration form. -/
inductive RegisterAction where
  | setError (msg : String)
  | request (username password pin : String)
deriving DecidableEq, Repr

/-- The PIN gate and request issuance of `handleRegister`. -/
def handleRegister (username password pin : String) : RegisterAction :=
  if pin ≠ "4266" ∧ pin ≠ "1608" then
    RegisterAction.setError "Incorrect PIN. Cannot create account."
  else
    RegisterAction.request username password pin

/-- Whether a given PIN value leads to a network request being issued. -/
def registerIssuesRequest (username password pin : String) : Bool :=
  match handleRegister username password pin with
  | RegisterAction.request _ _ _ => true
  | RegisterAction.setError _ => false

/-! ## 401 interceptor and logout (src/App.jsx lines 94-106, src/main.jsx
lines 19-25)

The axios response interceptor calls `onLogout()` exactly when
`error.response && error.response.status === 401`; `logout` removes the
stored token, clears the authenticated flag and moves the URL hash to
"login".  Every other fetch/save error is handled by a `.catch` that only
calls `console.error`. -/

/-- Client-side session state touched by `logout` in main.jsx, plus the
console log, which is the only sink of non-401 errors. -/
structure AppState where
  token : Option String
  isAuthenticated : Bool
  hash : String
  consoleLog : List String
deriving DecidableEq, Repr

/-- An axios error: `response` is `undefined` on transport failure, otherwise
carries the HTTP status. -/
structure AxiosError where
  responseStatus : Option Nat
deriving DecidableEq, Repr

/-- The `logout` callback of main.jsx. -/
def logout (s : AppState) : AppState :=
  { s with token := none, isAuthenticated := false, hash := "login" }

/-- The rejection branch of the global axios interceptor in App.jsx. -/
def interceptorOnError (err : AxiosError) (s : AppState) : AppState :=
  if err.responseStatus = some 401 then logout s else s

/-- A `.catch((err) => console.error(...))` handler in the fetch/save flows:
it appends to the console and changes nothing else. -/
def catchAndLog (msg : String) (s : AppState) : AppState :=
  { s with consoleLog := s.consoleLog ++ [msg] }

/-! ## Attribution painter (src/App.jsx, handleKeyDown lines 347-374)

On keydown without Ctrl/Meta/Alt, the handler reads the current selection;
when a range exists it finds the caret's enclosing element (the parent of a
text node), and if that element's `data-user` attribute is not the current
user it inserts a fresh span carrying `data-user = currentUser` and the
user's color, then moves the caret inside the span.  All of this runs in the
keydown phase, i.e. before the browser commits the typed character. -/

/-- The modifier flags inspected by `handleKeyDown`. -/
structure KeyModifiers where
  ctrlKey : Bool
  metaKey : Bool
  altKey : Bool
deriving DecidableEq, Repr

/-- What `handleKeyDown` can observe about the caret: whether a selection
range exists, and the `data-user` attribute of the enclosing element
(`none` models `getAttribute` returning `null`). -/
structure CaretContext where
  rangeCount : Nat
  enclosingUser : Option String
deriving DecidableEq, Repr

/-- The span the handler inserts: `data-user` value plus inline color. -/
structure AuthorSpan where
  user : String
  color : String
deriving DecidableEq, Repr

/-- Per-user color, as in `currentUser === 'alfredo' ? 'blue' : 'purple'`. -/
def userColor (user : String) : String :=
  if user = "alfredo" then "blue" else "purple"

/-- The keydown handler.  Returns `some span` when a new author-tagged span is
inserted at the caret (with the caret moved inside it) before the typed
character is committed, `none` when the keystroke is left alone. -/
def handleKeyDown (mods : KeyModifiers) (caret : CaretContext) (currentUser : String) :
    Option AuthorSpan :=
  if mods.ctrlKey || mods.metaKey || mods.altKey then none
  else if 0 < caret.rangeCount then
    if caret.enclosingUser ≠ some currentUser then
      some { user := currentUser, color := userColor currentUser }
    else none
  else none

/-! ## Gallery pagination (src/App.jsx, GallerySection lines 898-902 and
953-972) -/

/-- A gallery image document. -/
structure GalleryImage where
  id : String
  url : String
  description : String
deriving DecidableEq, Repr

/-- `imagesPerPage = 6`. -/
def imagesPerPage : Nat := 6

/-- JS `Array.prototype.slice(first, last)` for non-negative indices. -/
def jsSlice (first last : Nat) (l : List GalleryImage) : List GalleryImage :=
  (l.drop first).take (last - first)

/-- `images.slice(indexOfFirstImage, indexOfLastImage)` with
`indexOfLastImage = currentPage * imagesPerPage` and
`indexOfFirstImage = indexOfLastImage - imagesPerPage`. -/
def currentImages (images : List GalleryImage) (currentPage : Nat) : List GalleryImage :=
  jsSlice (currentPage * imagesPerPage - imagesPerPage) (currentPage * imagesPerPage) images

/-- `totalPages = Math.ceil(images.length / imagesPerPage)`. -/
def totalPages (images : List GalleryImage) : Nat :=
  (images.length + (imagesPerPage - 1)) / imagesPerPage

/-- `disabled={currentPage === 1}` on the Previous button. -/
def prevDisabled (currentPage : Nat) : Bool := currentPage = 1

/-- `disabled={currentPage === totalPages}` on the Next button. -/
def nextDisabled (images : List GalleryImage) (currentPage : Nat) : Bool :=
  currentPage = totalPages images

/-! ## Calendar dates (src/App.jsx, getLocalDateString lines 27-31 and
memoizedMonthDates lines 230-246)

Dates are handled as local calendar dates.  `getLocalDateString` shifts a
`Date` by its timezone offset and takes the ISO date part, which for a
`Date` constructed at local midnight `new Date(year, month, d)` is exactly
the zero-padded local `YYYY-MM-DD` string of `(year, month, d)` (assuming
local midnight exists, i.e. no DST transition at midnight).  JS `Date` month
arithmetic follows the proleptic Gregorian calendar, embedded below as
`daysInMonth`.  Months are 1-based here; the JS code's 0-based `getMonth()`
values are converted at the boundary. -/

/-- Two-digit zero padding used by the ISO date part for month and day. -/
def pad2 (n : Nat) : String :=
  if n < 10 then "0" ++ toString n else toString n

/-- The local `YYYY-MM-DD` string of a local calendar date (4-digit year).
This is `getLocalDateString (new Date(y, m-1, d))`. -/
def formatLocalDate (y m d : Nat) : String :=
  toString y ++ "-" ++ pad2 m ++ "-" ++ pad2 d

/-- Gregorian leap-year rule, as implemented by JS `Date`. -/
def isLeapYear (y : Nat) : Bool :=
  (y % 4 = 0 ∧ y % 100 ≠ 0) ∨ y % 400 = 0

/-- `new Date(year, month + 1, 0).getDate()`: the number of days in the
(1-based) month `m` of year `y`. -/
def daysInMonth (y m : Nat) : Nat :=
  if m = 2 then (if isLeapYear y then 29 else 28)
  else if m = 4 ∨ m = 6 ∨ m = 9 ∨ m = 11 then 30
  else 31

/-- Split a character list on the dash separator. -/
def splitOnDash : List Char → List (List Char)
  | [] => [[]]
  | c :: cs =>
    if c = '-' then [] :: splitOnDash cs
    else
      match splitOnDash cs with
      | [] => [[c]]
      | g :: gs => (c :: g) :: gs

/-- Numeric value of a decimal digit character. -/
def charDigit (c : Char) : Option Nat :=
  if '0' ≤ c ∧ c ≤ '9' then some (c.toNat - '0'.toNat) else none

/-- Parse a nonempty all-digit character list as a natural number. -/
def digitsToNat (cs : List Char) : Option Nat :=
  match cs with
  | [] => none
  | _ =>
    cs.foldl
      (fun acc c =>
        match acc, charDigit c with
        | some n, some d => some (n * 10 + d)
        | _, _ => none)
      (some 0)

/-- Extraction of `(year, month, day)` from a `YYYY-MM-DD` string, the data
`new Date(committedDate + 'T00:00')` exposes through `getFullYear` /
`getMonth` / `getDate` for a well-formed ISO local date string. -/
def parseDateString (s : String) : Option (Nat × Nat × Nat) :=
  match (splitOnDash s.toList).map digitsToNat with
  | [some y, some m, some d] => some (y, m, d)
  | _ => none

/-- The string is a canonical `YYYY-MM-DD` local date: 4-digit year, padded
month and day, day within the month. -/
def isValidDateString (s : String) : Bool :=
  match parseDateString s with
  | some (y, m, d) =>
    1000 ≤ y ∧ y ≤ 9999 ∧ 1 ≤ m ∧ m ≤ 12 ∧ 1 ≤ d ∧ d ≤ daysInMonth y m ∧
      s = formatLocalDate y m d
  | none => false

/-- `memoizedMonthDates`: for the committed date's year and month, the local
date strings of day 1 through the month's last day, in order. -/
def memoizedMonthDates (committedDate : String) : List String :=
  match parseDateString committedDate with
  | some (y, m, _) =>
    (List.range (daysInMonth y m)).map (fun i => formatLocalDate y m (i + 1))
  | none => []

/-- JS array indexing `arr[i]` with a possibly negative index: `undefined`
outside the range. -/
def zget (l : List String) (i : Int) : Option String :=
  if 0 ≤ i then l.get? i.toNat else none

/-- `previewDate = memoizedMonthDates[selectedIndex] || committedDate`
(JS `||`: `undefined` and the empty string both fall back). -/
def previewDate (monthDates : List String) (selectedIndex : Int)
    (committedDate : String) : String :=
  match zget monthDates selectedIndex with
  | some s => if s = "" then committedDate else s
  | none => committedDate

/-! ## Page-turn drag (src/App.jsx, handleDateBarDrag lines 305-315 and
handleDateBarDragEnd lines 318-334)

Pixel geometry uses exact rational arithmetic: `buttonWidth = 60`,
`buttonGap = 8`, `totalSpace = 68`.  During the drag the handler derives a
continuous slot position from the strip's x-offset, stores its floor in
`selectedIndex` and its fractional part in the page-turn motion value; on
drag end the fractional value decides whether to advance one more slot
(strictly more than one half, and only when not already at the last slot),
and the committed date becomes `memoizedMonthDates[newIndex]`. -/

def buttonWidth : ℚ := 60

def buttonGap : ℚ := 8

def totalSpace : ℚ := buttonWidth + buttonGap

/-- The state `handleDateBarDrag` leaves behind: `selectedIndex` (floor of
the continuous slot position, an integer that JS would also let go negative)
and the fractional page-turn progress. -/
structure DragState where
  selectedIndex : Int
  pageTurn : ℚ
deriving DecidableEq, Repr

/-- `handleDateBarDrag`, given the container width and the current value of
the `dragX` motion value. -/
def handleDateBarDrag (containerWidth dragXv : ℚ) : DragState :=
  let center := containerWidth / 2
  let continuous := (center - dragXv - buttonWidth / 2) / totalSpace
  let intPart := ⌊continuous⌋
  { selectedIndex := intPart, pageTurn := continuous - intPart }

/-- Outcome of `handleDateBarDragEnd`: the new index and the value assigned
to `committedDate` (which in JS is `undefined` when the index is out of the
month list's range). -/
structure DragEndResult where
  newIndex : Int
  newCommitted : Option String
deriving DecidableEq, Repr

/-- `handleDateBarDragEnd`: advance by one slot exactly when the page-turn
progress exceeds one half and the current slot is not the month's last,
then commit `memoizedMonthDates[newIndex]`. -/
def handleDateBarDragEnd (monthDates : List String) (ds : DragState) : DragEndResult :=
  let newIndex :=
    if ds.pageTurn > 1 / 2 ∧ ds.selectedIndex < (monthDates.length : Int) - 1 then
      ds.selectedIndex + 1
    else ds.selectedIndex
  { newIndex := newIndex, newCommitted := zget monthDates newIndex }

/-! ## Fetch-on-miss and prefetch (src/App.jsx, lines 262-295)

The effect runs whenever `committedDate`, `selectedIndex`, `token` or the
month list changes.  It issues `GET /api/journal?date=...` for the committed
date when `!journalCache[committedDate]` (JS falsiness: the key is absent
*or* bound to the empty string), and, when `selectedIndex` is not the last
slot, the same for `memoizedMonthDates[selectedIndex + 1]`.  Each response
populates the cache with `res.data.content || ''`. -/

/-- The list of dates the fetch/prefetch effect requests, in issue order. -/
def fetchEffectRequests (cache : List (String × String)) (committedDate : String)
    (selectedIndex : Nat) (monthDates : List String) : List String :=
  (if jsFalsyStr (lookupJs cache committedDate) then [committedDate] else []) ++
  (if selectedIndex < monthDates.length - 1 then
    match monthDates.get? (selectedIndex + 1) with
    | some nextDate => if jsFalsyStr (lookupJs cache nextDate) then [nextDate] else []
    | none => []
  else [])

/-- Completion of one fetch: `setJournalCache(prev => ({ ...prev, [date]:
res.data.content || '' }))`. -/
def applyFetchResult (cache : List (String × String)) (date : String)
    (respContent : Option String) : List (String × String) :=
  insertJs date (jsOrEmpty respContent) cache

/-! ## Remote poller (src/App.jsx, polling useEffect lines 407-430)

The interval callback closes over `committedDate`, `token`, `isFocused`
*and* `journalCache`; the effect re-runs only when the first three change
(the source notes "journalCache is intentionally omitted from
dependencies"), so every tick of one interval compares the fetched content
against the cache *snapshot* taken when the effect was installed, while the
cache write itself goes through a functional `setJournalCache` update and
the visible editor content is assigned directly. -/

/-- What one installation of the polling effect closed over. -/
structure PollContext where
  committedDate : String
  isFocused : Bool
  snapshot : List (String × String)
deriving DecidableEq, Repr

/-- The live state a poll tick can mutate: the current cache and the
visible editor content (`contentRef.current.innerHTML`). -/
structure PollState where
  cache : List (String × String)
  visible : String
deriving DecidableEq, Repr

/-- One poll tick, given the response content for the committed date:
overwrite cache and visible content when not focused and the fetched
content (`res.data.content || ''`) differs from the snapshot's value,
otherwise leave everything alone. -/
def pollTick (ctx : PollContext) (st : PollState) (respContent : Option String) :
    PollState :=
  let fetched := jsOrEmpty respContent
  if ¬ctx.isFocused ∧ lookupJs ctx.snapshot ctx.committedDate ≠ some fetched then
    { cache := insertJs ctx.committedDate fetched st.cache, visible := fetched }
  else st

/-! ## Autosave scheduler (src/App.jsx, handleInput lines 337-343 and the
auto-save useEffect lines 387-405)

The auto-save effect depends on `[committedDate, token,
journalCache[committedDate]]`: whenever the committed date or the active
date's cached value changes, the cleanup clears the pending 1-second timer
and, when `journalCache[committedDate] !== undefined`, a fresh timer is
armed capturing that value; when the timer fires it issues one
`POST /api/journal { date, content }`.  At most one timer exists per editor
instance (the `timer` field below).  The machine below replays this against
discrete-time events: a local edit (`handleInput` writing the active date's
cache entry), a committed-date switch, a remote cache write (fetch
completion or poll overwrite), and idling.  A timer due at or before an
event's timestamp fires before the event is processed, matching the JS
event loop. -/

/-- State of one journal-editor instance as seen by the auto-save effect. -/
structure SchedState where
  now : Nat
  committedDate : String
  journalCache : List (String × String)
  timer : Option (Nat × String × String)
deriving DecidableEq, Repr

/-- Discrete events driving the auto-save machine, each carrying its
timestamp in milliseconds. -/
inductive SchedEvent where
  | edit (t : Nat) (content : String)
  | switchDate (t : Nat) (newDate : String)
  | remoteSet (t : Nat) (date content : String)
  | idleUntil (t : Nat)
deriving DecidableEq, Repr

/-- Advance the clock to `t`, firing the pending timer when it is due:
firing issues the captured `POST { date, content }` and clears the timer. -/
def fireDue (st : SchedState) (t : Nat) : SchedState × List (String × String) :=
  match st.timer with
  | some (ft, d, c) =>
    if ft ≤ t then ({ st with now := t, timer := none }, [(d, c)])
    else ({ st with now := t }, [])
  | none => ({ st with now := t }, [])

/-- Re-run of the auto-save effect after its dependencies changed: the old
timer is already cleared; arm a new one iff the active date has a cache
entry, capturing that entry. -/
def autosaveRemount (st : SchedState) : SchedState :=
  match lookupJs st.journalCache st.committedDate with
  | some c => { st with timer := some (st.now + 1000, st.committedDate, c) }
  | none => { st with timer := none }

/-- Process one event: fire any due timer, apply the event's cache/date
mutation, and re-arm the timer exactly when the effect's dependency
`journalCache[committedDate]` (or `committedDate` itself) changed. -/
def schedStep (st : SchedState) (e : SchedEvent) : SchedState × List (String × String) :=
  match e with
  | SchedEvent.edit t c =>
    let fired := fireDue st t
    let st₁ := fired.1
    let changed := lookupJs st₁.journalCache st₁.committedDate ≠ some c
    let st₂ := { st₁ with journalCache := insertJs st₁.committedDate c st₁.journalCache }
    (if changed then { st₂ with timer := some (t + 1000, st₂.committedDate, c) } else st₂,
      fired.2)
  | SchedEvent.switchDate t d =>
    let fired := fireDue st t
    let st₁ := fired.1
    (if d = st₁.committedDate then st₁
     else autosaveRemount { st₁ with committedDate := d },
      fired.2)
  | SchedEvent.remoteSet t d c =>
    let fired := fireDue st t
    let st₁ := fired.1
    let changed := d = st₁.committedDate ∧ lookupJs st₁.journalCache d ≠ some c
    let st₂ := { st₁ with journalCache := insertJs d c st₁.journalCache }
    (if changed then { st₂ with timer := some (t + 1000, d, c) } else st₂,
      fired.2)
  | SchedEvent.idleUntil t => fireDue st t

/-- Run the machine over an event list, concatenating the issued saves. -/
def schedRun (st : SchedState) (es : List SchedEvent) :
    SchedState × List (String × String) :=
  match es with
  | [] => (st, [])
  | e :: rest =>
    let stepped := schedStep st e
    let tail := schedRun stepped.1 rest
    (tail.1, stepped.2 ++ tail.2)

/-- Well-formed keystroke bursts: strictly increasing timestamps, each
within the debounce window of its predecessor, each changing the content. -/
def goodEdits : Nat → String → List (Nat × String) → Bool
  | _, _, [] => true
  | t₀, c₀, (t, c) :: rest =>
    decide (t₀ < t) && decide (t < t₀ + 1000) && decide (c ≠ c₀) && goodEdits t c rest

/-- No pending timer targets date `d`. -/
def noTimerFor (d : String) (st : SchedState) : Prop :=
  ∀ ft dt c, st.timer = some (ft, dt, c) → dt ≠ d

/-- The event never switches the committed date to `d`. -/
def avoidsSwitchTo (d : String) : SchedEvent → Prop
  | SchedEvent.switchDate _ d' => d' ≠ d
  | _ => True

/-! ## Helper lemmas -/

theorem lookupJs_insertJs_self (cache : List (String × String)) (k v : String) :
    lookupJs (insertJs k v cache) k = some v := by
  induction cache with
  | nil => simp [insertJs, lookupJs]
  | cons hd tl ih =>
    obtain ⟨k₀, v₀⟩ := hd
    by_cases h : k₀ = k
    · simp [insertJs, lookupJs, h]
    · simp [insertJs, lookupJs, h, ih]

theorem lookupJs_insertJs_other (cache : List (String × String)) (k k' v : String)
    (h : k' ≠ k) : lookupJs (insertJs k v cache) k' = lookupJs cache k' := by
  have hk'ne : ¬ k = k' := fun hh => h hh.symm
  induction cache with
  | nil => simp [insertJs, lookupJs, hk'ne]
  | cons hd tl ih =>
    obtain ⟨k₀, v₀⟩ := hd
    by_cases hk : k₀ = k
    · subst hk
      simp [insertJs, lookupJs, hk'ne]
    · by_cases hk' : k₀ = k'
      · simp [insertJs, lookupJs, hk, hk', h]
      · simp [insertJs, lookupJs, hk, hk', ih]

/-! ## C7: 401 handling -/

/-- C7: every response with status 401 reaching the axios interceptor forces
client-side logout (token removed, authenticated flag cleared); any error
whose status is not 401 leaves the session state untouched; and the
`.catch` handlers of the fetch/save flows only append to the console log,
changing no session state. -/
theorem unauthorized_logout :
    (∀ (s : AppState) (err : AxiosError), err.responseStatus = some 401 →
      interceptorOnError err s =
        { s with token := none, isAuthenticated := false, hash := "login" }) ∧
    (∀ (s : AppState) (err : AxiosError), err.responseStatus ≠ some 401 →
      interceptorOnError err s = s) ∧
    (∀ (s : AppState) (msg : String),
      (catchAndLog msg s).token = s.token ∧
      (catchAndLog msg s).isAuthenticated = s.isAuthenticated ∧
      (catchAndLog msg s).hash = s.hash ∧
      (catchAndLog msg s).consoleLog = s.consoleLog ++ [msg]) := by
  refine ⟨?_, ?_, ?_⟩
  · intro s err h
    simp [interceptorOnError, h, logout]
  · intro s err h
    simp [interceptorOnError, h]
  · intro s msg
    simp [catchAndLog]

/-- Witness for `unauthorized_logout` at a concrete 401 and a concrete 500. -/
theorem unauthorized_logout_witness :
    interceptorOnError ⟨some 401⟩ ⟨some "tok", true, "journal", []⟩ =
      ⟨none, false, "login", []⟩ ∧
    interceptorOnError ⟨some 500⟩ ⟨some "tok", true, "journal", []⟩ =
      ⟨some "tok", true, "journal", []⟩ := by
  constructor
  · exact unauthorized_logout.1 ⟨some "tok", true, "journal", []⟩ ⟨some 401⟩ rfl
  · exact unauthorized_logout.2.1 ⟨some "tok", true, "journal", []⟩ ⟨some 500⟩ (by decide)

/-! ## C8: registration PIN gate -/

/-- C8 counterexample: two distinct PIN values both lead to a registration
request being issued, so no single fixed shared PIN gates registration —
refuting "only when the entered PIN equals the fixed shared PIN; for any
other PIN value it sets an error message and issues no network request". -/
theorem register_pin_counterexample :
    registerIssuesRequest "user" "pw" "4266" = true ∧
    registerIssuesRequest "user" "pw" "1608" = true ∧
    (("4266" : String) == "1608") = false := by
  refine ⟨by decide, by decide, by decide⟩

/-- C8 (amended): the register form issues a registration request exactly
when the entered PIN is one of the two accepted values "4266" and "1608";
for any other PIN it sets the error message and issues no request. -/
theorem register_pin_gate (username password pin : String) :
    (registerIssuesRequest username password pin = true ↔
      (pin = "4266" ∨ pin = "1608")) ∧
    (pin ≠ "4266" → pin ≠ "1608" →
      handleRegister username password pin =
        RegisterAction.setError "Incorrect PIN. Cannot create account.") ∧
    ((pin = "4266" ∨ pin = "1608") →
      handleRegister username password pin =
        RegisterAction.request username password pin) := by
  by_cases h1 : pin = "4266"
  · refine ⟨?_, ?_, ?_⟩ <;> simp [registerIssuesRequest, handleRegister, h1]
  · by_cases h2 : pin = "1608"
    · refine ⟨?_, ?_, ?_⟩ <;> simp [registerIssuesRequest, handleRegister, h1, h2]
    · refine ⟨?_, ?_, ?_⟩ <;> simp [registerIssuesRequest, handleRegister, h1, h2]

/-- Witness for `register_pin_gate`: the second accepted PIN issues a
request, a wrong PIN only sets the error message. -/
theorem register_pin_gate_witness :
    registerIssuesRequest "user" "pw" "1608" = true ∧
    handleRegister "user" "pw" "0000" =
      RegisterAction.setError "Incorrect PIN. Cannot create account." := by
  constructor
  · exact (register_pin_gate "user" "pw" "1608").1.mpr (Or.inr rfl)
  · exact (register_pin_gate "user" "pw" "0000").2.1 (by decide) (by decide)

/-! ## C6: attribution painter -/

/-- C6: on a keystroke without Ctrl/Meta/Alt, with a selection range present,
when the caret's enclosing tagged region records an author different from
the current user, `handleKeyDown` inserts at the caret a new span tagged
with the current user's `data-user` attribute and the current user's color
(and moves the caret inside it) before the typed character is committed. -/
theorem keydown_author_span (mods : KeyModifiers) (caret : CaretContext)
    (currentUser author : String)
    (hctrl : mods.ctrlKey = false) (hmeta : mods.metaKey = false)
    (halt : mods.altKey = false) (hrange : 0 < caret.rangeCount)
    (hauthor : caret.enclosingUser = some author) (hne : author ≠ currentUser) :
    handleKeyDown mods caret currentUser =
      some { user := currentUser, color := userColor currentUser } := by
  simp [handleKeyDown, hctrl, hmeta, halt, hrange, hauthor, hne]

/-- Witness for `keydown_author_span`: user "A" typing in user "B"'s region
gets a fresh span attributed to "A" with "A"'s color. -/
theorem keydown_author_span_witness :
    handleKeyDown ⟨false, false, false⟩ ⟨1, some "B"⟩ "A" =
      some ⟨"A", "purple"⟩ := by
  exact keydown_author_span ⟨false, false, false⟩ ⟨1, some "B"⟩ "A" "B"
    rfl rfl rfl (by decide) rfl (by decide)

/-! ## C10: gallery pagination -/

/-- C10: the gallery page shows precisely `images.slice(6*(page-1), 6*page)`
(hence at most six images); the Previous button is disabled exactly on page
one; the Next button is disabled exactly when the page equals
`ceil(images.length / 6)`; and with an empty gallery (zero total pages) the
Next button is enabled on page one. -/
theorem gallery_pagination (images : List GalleryImage) (page : Nat) :
    currentImages images page =
      jsSlice (6 * (page - 1)) (6 * page) images ∧
    (currentImages images page).length ≤ 6 ∧
    (prevDisabled page = true ↔ page = 1) ∧
    (nextDisabled images page = true ↔ page = (images.length + 5) / 6) ∧
    totalPages [] = 0 ∧
    nextDisabled [] 1 = false := by
  refine ⟨?_, ?_, ?_, ?_, ?_, ?_⟩
  · unfold currentImages jsSlice imagesPerPage
    have h1 : page * 6 - 6 = 6 * (page - 1) := by omega
    have h2 : page * 6 - (page * 6 - 6) = 6 * page - 6 * (page - 1) := by omega
    rw [h2, h1]
  · unfold currentImages jsSlice imagesPerPage
    calc ((images.drop (page * 6 - 6)).take (page * 6 - (page * 6 - 6))).length
        ≤ page * 6 - (page * 6 - 6) := by
          exact List.length_take_le _ _
      _ ≤ 6 := by omega
  · simp [prevDisabled]
  · simp [nextDisabled, totalPages, imagesPerPage]
  · rfl
  · rfl

/-- Witness for `gallery_pagination`: with seven images, page 2 holds the
single seventh image and the buttons disable as stated. -/
theorem gallery_pagination_witness :
    (currentImages [⟨"1", "a", "x"⟩, ⟨"2", "b", "x"⟩, ⟨"3", "c", "x"⟩, ⟨"4", "d", "x"⟩,
        ⟨"5", "e", "x"⟩, ⟨"6", "f", "x"⟩, ⟨"7", "g", "x"⟩] 2).length ≤ 6 ∧
    nextDisabled [] 1 = false := by
  have h := gallery_pagination
    [⟨"1", "a", "x"⟩, ⟨"2", "b", "x"⟩, ⟨"3", "c", "x"⟩, ⟨"4", "d", "x"⟩,
      ⟨"5", "e", "x"⟩, ⟨"6", "f", "x"⟩, ⟨"7", "g", "x"⟩] 2
  exact ⟨h.2.1, h.2.2.2.2.2⟩

/-! ## C1: remote poller -/

/-- C1 counterexample: two ticks of one installation of the polling effect,
editor unfocused throughout.  The snapshot holds "X" for the committed date;
the first tick fetches "Y" and overwrites cache and visible content to "Y";
the second tick fetches "X", which differs from the now-cached "Y", yet
nothing is overwritten because the closure still compares against the stale
snapshot "X" — refuting the claim that a differing fetched value must
overwrite cache and visible content. -/
theorem poll_overwrite_counterexample :
    pollTick ⟨"2025-02-14", false, [("2025-02-14", "X")]⟩
        ⟨[("2025-02-14", "X")], "X"⟩ (some "Y") =
      ⟨[("2025-02-14", "Y")], "Y"⟩ ∧
    lookupJs [("2025-02-14", "Y")] "2025-02-14" = some "Y" ∧
    (("X" : String) == "Y") = false ∧
    pollTick ⟨"2025-02-14", false, [("2025-02-14", "X")]⟩
        ⟨[("2025-02-14", "Y")], "Y"⟩ (some "X") =
      ⟨[("2025-02-14", "Y")], "Y"⟩ := by
  refine ⟨by decide, by decide, by decide, by decide⟩

/-- C1 (amended): per poll tick, when the editor holds focus nothing is
altered; when it does not hold focus the fetched content is compared
against the cache snapshot captured when the polling effect was installed
(the effect re-installs on committed-date, token or focus change, not on
cache change): a fetched value differing from the snapshot overwrites both
the cache entry and the visible editor content with the fetched content,
while a fetched value equal to the snapshot leaves both untouched even if
it differs from the live cached value. -/
theorem poll_reconciliation (ctx : PollContext) (st : PollState) (resp : Option String) :
    (ctx.isFocused = true → pollTick ctx st resp = st) ∧
    (ctx.isFocused = false →
      lookupJs ctx.snapshot ctx.committedDate ≠ some (jsOrEmpty resp) →
      pollTick ctx st resp =
        ⟨insertJs ctx.committedDate (jsOrEmpty resp) st.cache, jsOrEmpty resp⟩ ∧
      lookupJs (pollTick ctx st resp).cache ctx.committedDate = some (jsOrEmpty resp) ∧
      (pollTick ctx st resp).visible = jsOrEmpty resp) ∧
    (ctx.isFocused = false →
      lookupJs ctx.snapshot ctx.committedDate = some (jsOrEmpty resp) →
      pollTick ctx st resp = st) := by
  refine ⟨?_, ?_, ?_⟩
  · intro hf
    simp [pollTick, hf]
  · intro hf hdiff
    have heq : pollTick ctx st resp =
        ⟨insertJs ctx.committedDate (jsOrEmpty resp) st.cache, jsOrEmpty resp⟩ := by
      simp [pollTick, hf, hdiff]
    refine ⟨heq, ?_, ?_⟩
    · rw [heq]
      exact lookupJs_insertJs_self st.cache ctx.committedDate (jsOrEmpty resp)
    · rw [heq]
  · intro hf hsame
    simp [pollTick, hf, hsame]

/-- Witness for `poll_reconciliation`: a focused tick changes nothing; an
unfocused tick whose fetched content differs from the (empty) snapshot
overwrites cache and visible content. -/
theorem poll_reconciliation_witness :
    pollTick ⟨"2025-02-14", true, []⟩ ⟨[], "v"⟩ (some "Z") = ⟨[], "v"⟩ ∧
    pollTick ⟨"2025-02-14", false, []⟩ ⟨[], ""⟩ (some "Z") =
      ⟨[("2025-02-14", "Z")], "Z"⟩ := by
  constructor
  · exact (poll_reconciliation ⟨"2025-02-14", true, []⟩ ⟨[], "v"⟩ (some "Z")).1 rfl
  · exact ((poll_reconciliation ⟨"2025-02-14", false, []⟩ ⟨[], ""⟩ (some "Z")).2.1
      rfl (by decide)).1

/-! ## C5: fetch-on-miss and prefetch -/

/-- C5 counterexample: the cache holds the entry "" for the committed date
2025-02-14 (the stored form of an empty journal entry), yet the effect
still issues a fetch for that date, because the JS guard
`!journalCache[committedDate]` treats the empty string as a miss — refuting
"a fetch is issued if and only if the cache holds no entry". -/
theorem fetch_on_miss_counterexample :
    lookupJs [("2025-02-14", "")] "2025-02-14" = some "" ∧
    "2025-02-14" ∈ fetchEffectRequests [("2025-02-14", "")] "2025-02-14" 13
        (memoizedMonthDates "2025-02-14") := by
  refine ⟨by decide, by decide⟩

/-- C5 (amended): when the committed date is resolved, a fetch for it is
issued if and only if its cache entry is absent or the empty string (JS
falsiness); when the slot after `selectedIndex` exists in the month list,
a fetch for that next date is likewise issued if and only if its entry is
absent or empty; and a completed fetch populates the cache entry for its
date with the response content (empty string when the response carries
none). -/
theorem fetch_on_miss (cache : List (String × String)) (cd : String)
    (i : Nat) (mds : List String) :
    (mds.get? (i + 1) ≠ some cd →
      (cd ∈ fetchEffectRequests cache cd i mds ↔
        (lookupJs cache cd = none ∨ lookupJs cache cd = some ""))) ∧
    (∀ nd, mds.get? (i + 1) = some nd → nd ≠ cd →
      (nd ∈ fetchEffectRequests cache cd i mds ↔
        (lookupJs cache nd = none ∨ lookupJs cache nd = some ""))) ∧
    (∀ d r, lookupJs (applyFetchResult cache d r) d = some (jsOrEmpty r)) := by
  have hfalsy : ∀ o : Option String,
      jsFalsyStr o = true ↔ (o = none ∨ o = some "") := by
    intro o
    rcases o with _ | s
    · simp [jsFalsyStr]
    · simp [jsFalsyStr]
  refine ⟨?_, ?_, ?_⟩
  · intro hne
    rw [← hfalsy]
    have hB : cd ∉ (if i < mds.length - 1 then
        match mds.get? (i + 1) with
        | some nextDate =>
          if jsFalsyStr (lookupJs cache nextDate) then [nextDate] else []
        | none => []
      else ([] : List String)) := by
      intro hmem
      rcases hsplit : (i < mds.length - 1 : Bool) with _ | _
      all_goals rcases hg : mds.get? (i + 1) with _ | nd
      all_goals rw [hg] at hmem
      all_goals by_cases hc : i < mds.length - 1
      all_goals simp [hc] at hmem
      all_goals rcases hf2 : jsFalsyStr (lookupJs cache nd) with _ | _
      all_goals simp [hf2] at hmem
      all_goals exact hne (by rw [hg, hmem])
    unfold fetchEffectRequests
    rw [List.mem_append]
    constructor
    · rintro (hA | hB')
      · by_cases hf : jsFalsyStr (lookupJs cache cd) = true
        · exact hf
        · simp [hf] at hA
      · exact absurd hB' hB
    · intro hf
      left
      simp [hf]
  · intro nd hg hnd
    obtain ⟨hlt, -⟩ := List.get?_eq_some.mp hg
    have hg' : mds[i + 1]? = some nd := by
      rw [← List.get?_eq_getElem?]
      exact hg
    have hc : i < mds.length - 1 := by omega
    rw [← hfalsy]
    by_cases hf1 : jsFalsyStr (lookupJs cache cd) = true <;>
      by_cases hf2 : jsFalsyStr (lookupJs cache nd) = true <;>
        simp [fetchEffectRequests, hg', hc, hf1, hf2, hnd]
  · intro d r
    exact lookupJs_insertJs_self cache d (jsOrEmpty r)

/-- Witness for `fetch_on_miss`: with an empty cache and committed date
2025-02-14 at slot 13, both the committed date and the next date 2025-02-15
are fetched, and a completed fetch carrying "hi" populates the entry. -/
theorem fetch_on_miss_witness :
    "2025-02-14" ∈ fetchEffectRequests [] "2025-02-14" 13
        (memoizedMonthDates "2025-02-14") ∧
    "2025-02-15" ∈ fetchEffectRequests [] "2025-02-14" 13
        (memoizedMonthDates "2025-02-14") ∧
    lookupJs (applyFetchResult [] "2025-02-14" (some "hi")) "2025-02-14" =
      some "hi" := by
  refine ⟨?_, ?_, ?_⟩
  · exact ((fetch_on_miss [] "2025-02-14" 13 (memoizedMonthDates "2025-02-14")).1
      (by decide)).mpr (Or.inl rfl)
  · exact ((fetch_on_miss [] "2025-02-14" 13 (memoizedMonthDates "2025-02-14")).2.1
      "2025-02-15" (by decide) (by decide)).mpr (Or.inl rfl)
  · exact (fetch_on_miss [] "2025-02-14" 13 (memoizedMonthDates "2025-02-14")).2.2
      "2025-02-14" (some "hi")

/-! ## C3: page-turn drag -/

/-- C3 counterexample: the date strip is centered on committed date
2025-02-01 (slot 0; for an 800-pixel container the layout effect puts
`dragX` at 370).  A single drag gesture moves `dragX` to 213.6 px, ending
at continuous slot position 2.3: the fractional page-turn progress is
3/10 ≤ 1/2, yet drag end commits 2025-02-03 — the committed date changed
(by two days) although progress stayed at or below one half, refuting the
claim. -/
theorem drag_commit_counterexample :
    (handleDateBarDrag 800 (1068 / 5)).pageTurn ≤ 1 / 2 ∧
    zget (memoizedMonthDates "2025-02-01") 0 = some "2025-02-01" ∧
    (handleDateBarDragEnd (memoizedMonthDates "2025-02-01")
        (handleDateBarDrag 800 (1068 / 5))).newCommitted = some "2025-02-03" ∧
    (("2025-02-03" : String) == "2025-02-01") = false := by
  refine ⟨by norm_num [handleDateBarDrag, buttonWidth, buttonGap, totalSpace], by decide,
    ?_, by decide⟩
  have hds : handleDateBarDrag 800 (1068 / 5) = ⟨2, 3 / 10⟩ := by
    norm_num [handleDateBarDrag, buttonWidth, buttonGap, totalSpace]
  rw [hds]
  have hcond : ¬((3 : ℚ) / 10 > 1 / 2 ∧
      (2 : Int) < ((memoizedMonthDates "2025-02-01").length : Int) - 1) := by
    intro hc
    exact absurd hc.1 (by norm_num)
  show zget (memoizedMonthDates "2025-02-01")
      (if (3 : ℚ) / 10 > 1 / 2 ∧
          (2 : Int) < ((memoizedMonthDates "2025-02-01").length : Int) - 1
        then 2 + 1 else 2) = some "2025-02-03"
  rw [if_neg hcond]
  decide

/-- C3 (amended): on drag end the committed date becomes the month-list
entry at the slot where the gesture ended — `selectedIndex` is the floor of
the continuous drag position and may differ from the original committed
slot for a drag spanning several slots — advanced by one more slot exactly
when the fractional progress exceeds one half and the end slot is not the
month's last (so the index never passes the last day and a drag never
leaves the displayed month).  For a gesture ending inside the committed
date's own slot this specializes to the original claim: progress ≤ 1/2
keeps the committed date, progress > 1/2 advances it one day, clamped at
month end. -/
theorem drag_commit (monthDates : List String) (i : Int) (p : ℚ) (cd : String) :
    (p ≤ 1 / 2 → handleDateBarDragEnd monthDates ⟨i, p⟩ =
      ⟨i, zget monthDates i⟩) ∧
    (p ≤ 1 / 2 → zget monthDates i = some cd →
      (handleDateBarDragEnd monthDates ⟨i, p⟩).newCommitted = some cd) ∧
    (p > 1 / 2 → i < (monthDates.length : Int) - 1 →
      handleDateBarDragEnd monthDates ⟨i, p⟩ =
        ⟨i + 1, zget monthDates (i + 1)⟩) ∧
    (p > 1 / 2 → ¬ i < (monthDates.length : Int) - 1 →
      handleDateBarDragEnd monthDates ⟨i, p⟩ = ⟨i, zget monthDates i⟩) := by
  refine ⟨?_, ?_, ?_, ?_⟩
  · intro hp
    have h : ¬(p > 1 / 2 ∧ i < (monthDates.length : Int) - 1) := fun hc =>
      absurd hc.1 (not_lt.mpr hp)
    show (⟨if p > 1 / 2 ∧ i < (monthDates.length : Int) - 1 then i + 1 else i,
        zget monthDates
          (if p > 1 / 2 ∧ i < (monthDates.length : Int) - 1 then i + 1 else i)⟩ :
        DragEndResult) = ⟨i, zget monthDates i⟩
    rw [if_neg h]
  · intro hp hcd
    have h : ¬(p > 1 / 2 ∧ i < (monthDates.length : Int) - 1) := fun hc =>
      absurd hc.1 (not_lt.mpr hp)
    show zget monthDates
        (if p > 1 / 2 ∧ i < (monthDates.length : Int) - 1 then i + 1 else i) = some cd
    rw [if_neg h, hcd]
  · intro hp hi
    show (⟨if p > 1 / 2 ∧ i < (monthDates.length : Int) - 1 then i + 1 else i,
        zget monthDates
          (if p > 1 / 2 ∧ i < (monthDates.length : Int) - 1 then i + 1 else i)⟩ :
        DragEndResult) = ⟨i + 1, zget monthDates (i + 1)⟩
    rw [if_pos ⟨hp, hi⟩]
  · intro hp hi
    have h : ¬(p > 1 / 2 ∧ i < (monthDates.length : Int) - 1) := fun hc => hi hc.2
    show (⟨if p > 1 / 2 ∧ i < (monthDates.length : Int) - 1 then i + 1 else i,
        zget monthDates
          (if p > 1 / 2 ∧ i < (monthDates.length : Int) - 1 then i + 1 else i)⟩ :
        DragEndResult) = ⟨i, zget monthDates i⟩
    rw [if_neg h]

/-- Witness for `drag_commit` on February 2025: a gesture ending in slot 5
with progress 3/10 commits 2025-02-06 (the slot's own date); one ending in
slot 5 with progress 7/10 commits 2025-02-07; one ending in the last slot
27 with progress 7/10 stays clamped at 2025-02-28. -/
theorem drag_commit_witness :
    (handleDateBarDragEnd (memoizedMonthDates "2025-02-01") ⟨5, 3 / 10⟩).newCommitted =
      some "2025-02-06" ∧
    (handleDateBarDragEnd (memoizedMonthDates "2025-02-01") ⟨5, 7 / 10⟩).newCommitted =
      some "2025-02-07" ∧
    (handleDateBarDragEnd (memoizedMonthDates "2025-02-01") ⟨27, 7 / 10⟩).newCommitted =
      some "2025-02-28" := by
  refine ⟨?_, ?_, ?_⟩
  · exact (drag_commit (memoizedMonthDates "2025-02-01") 5 (3 / 10) "2025-02-06").2.1
      (by norm_num) (by decide)
  · have h := (drag_commit (memoizedMonthDates "2025-02-01") 5 (7 / 10) "").2.2.1
      (by norm_num) (by decide)
    rw [h]
    decide
  · have h := (drag_commit (memoizedMonthDates "2025-02-01") 27 (7 / 10) "").2.2.2
      (by norm_num) (by decide)
    rw [h]
    decide

/-! ## C9: month date list and preview date -/

theorem listLt_append (p : List Char) {a b : List Char} (h : a < b) :
    p ++ a < p ++ b := by
  induction p with
  | nil => simpa using h
  | cons c cs ih => exact List.Lex.cons ih

theorem stringLt_append (p a b : String) (h : a < b) : p ++ a < p ++ b := by
  rw [String.lt_iff_toList_lt] at h ⊢
  simp only [String.toList, String.data_append]
  exact listLt_append p.data h

theorem pad2_toList_lt_succ :
    ∀ d : Nat, d < 31 → (pad2 d).toList < (pad2 (d + 1)).toList := by
  decide

theorem formatLocalDate_lt_succ (y m : Nat) {d : Nat} (h : d < 31) :
    formatLocalDate y m d < formatLocalDate y m (d + 1) :=
  stringLt_append (toString y ++ "-" ++ pad2 m ++ "-") (pad2 d) (pad2 (d + 1))
    (String.lt_iff_toList_lt.mpr (pad2_toList_lt_succ d h))

theorem daysInMonth_le : ∀ y m : Nat, daysInMonth y m ≤ 31 := by
  intro y m
  unfold daysInMonth
  split_ifs <;> omega

theorem daysInMonth_pos : ∀ y m : Nat, 28 ≤ daysInMonth y m := by
  intro y m
  unfold daysInMonth
  split_ifs <;> omega

theorem formatLocalDate_ne_empty (y m d : Nat) : formatLocalDate y m d ≠ "" := by
  intro h
  have hlen : (formatLocalDate y m d).length = 0 := by rw [h]; rfl
  unfold formatLocalDate at hlen
  simp [String.length_append] at hlen
  exact absurd hlen.1.1.1.2 (by decide)

/-- C9: for a committed date in canonical YYYY-MM-DD form, the memoized
month list has one entry per day of that month, its k-th entry is the local
date string of day k+1, its entries are strictly increasing, it contains the
committed date itself, and the preview date is the entry at the selected
index when that index is in range and falls back to the committed date
otherwise. -/
theorem month_dates_preview (s : String) (y m d : Nat)
    (hp : parseDateString s = some (y, m, d)) (hv : isValidDateString s = true) :
    (memoizedMonthDates s).length = daysInMonth y m ∧
    (∀ k, k < daysInMonth y m →
      (memoizedMonthDates s).get? k = some (formatLocalDate y m (k + 1))) ∧
    List.Chain' (· < ·) (memoizedMonthDates s) ∧
    s ∈ memoizedMonthDates s ∧
    (∀ i : Int, (∀ str, zget (memoizedMonthDates s) i = some str →
        previewDate (memoizedMonthDates s) i s = str) ∧
      (zget (memoizedMonthDates s) i = none →
        previewDate (memoizedMonthDates s) i s = s)) := by
  rw [isValidDateString, hp] at hv
  simp only [decide_eq_true_eq] at hv
  obtain ⟨-, -, -, -, hd1, hdle, hfmt⟩ := hv
  have hmem : memoizedMonthDates s =
      (List.range (daysInMonth y m)).map (fun i => formatLocalDate y m (i + 1)) := by
    rw [memoizedMonthDates, hp]
  have hlen : (memoizedMonthDates s).length = daysInMonth y m := by
    rw [hmem, List.length_map, List.length_range]
  have hget : ∀ k, k < daysInMonth y m →
      (memoizedMonthDates s).get? k = some (formatLocalDate y m (k + 1)) := by
    intro k hk
    rw [hmem, List.get?_map, List.get?_range hk]
    rfl
  have hne : ∀ str ∈ memoizedMonthDates s, str ≠ "" := by
    intro str hstr
    rw [hmem] at hstr
    obtain ⟨j, -, rfl⟩ := List.mem_map.mp hstr
    exact formatLocalDate_ne_empty y m (j + 1)
  refine ⟨hlen, hget, ?_, ?_, ?_⟩
  · rw [hmem]
    rcases hn : daysInMonth y m with _ | n
    · simp
    · rw [List.chain'_map, List.chain'_range_succ]
      intro k hk
      apply formatLocalDate_lt_succ
      have h31 := daysInMonth_le y m
      omega
  · have hsome : (memoizedMonthDates s).get? (d - 1) = some (formatLocalDate y m d) := by
      have h := hget (d - 1) (by omega)
      rwa [Nat.sub_add_cancel hd1] at h
    have hmem' : formatLocalDate y m d ∈ memoizedMonthDates s := List.get?_mem hsome
    rwa [← hfmt] at hmem'
  · intro i
    constructor
    · intro str hstr
      have hstrne : str ≠ "" := by
        apply hne
        unfold zget at hstr
        by_cases h0 : 0 ≤ i
        · rw [if_pos h0] at hstr
          exact List.get?_mem hstr
        · rw [if_neg h0] at hstr
          exact absurd hstr (by simp)
      unfold previewDate
      rw [hstr]
      simp [hstrne]
    · intro hnone
      unfold previewDate
      rw [hnone]

/-- Witness for `month_dates_preview` at the committed date 2025-02-14. -/
theorem month_dates_preview_witness :
    (memoizedMonthDates "2025-02-14").length = 28 ∧
    "2025-02-14" ∈ memoizedMonthDates "2025-02-14" ∧
    previewDate (memoizedMonthDates "2025-02-14") 13 "2025-02-14" = "2025-02-14" ∧
    previewDate (memoizedMonthDates "2025-02-14") 99 "2025-02-14" = "2025-02-14" := by
  have h := month_dates_preview "2025-02-14" 2025 2 14 (by decide) (by decide)
  refine ⟨h.1.trans (by decide), h.2.2.2.1, ?_, ?_⟩
  · exact (h.2.2.2.2 13).1 "2025-02-14" (by decide)
  · exact (h.2.2.2.2 99).2 (by decide)

/-! ## C2: debounced autosave -/

theorem schedRun_append (es₁ es₂ : List SchedEvent) :
    ∀ st : SchedState,
      schedRun st (es₁ ++ es₂) =
        ((schedRun (schedRun st es₁).1 es₂).1,
          (schedRun st es₁).2 ++ (schedRun (schedRun st es₁).1 es₂).2) := by
  induction es₁ with
  | nil => intro st; simp [schedRun]
  | cons e rest ih =>
    intro st
    simp only [List.cons_append, schedRun]
    simp only [List.append_eq]
    rw [ih (schedStep st e).1]
    simp [List.append_assoc]

theorem schedRun_edit_burst (es : List (Nat × String)) :
    ∀ (t₀ : Nat) (c₀ d : String) (cache : List (String × String)),
      goodEdits t₀ c₀ es = true →
      lookupJs cache d = some c₀ →
      ∃ cache',
        schedRun ⟨t₀, d, cache, some (t₀ + 1000, d, c₀)⟩
            (es.map fun p => SchedEvent.edit p.1 p.2) =
          (⟨(es.getLastD (t₀, c₀)).1, d, cache',
            some ((es.getLastD (t₀, c₀)).1 + 1000, d, (es.getLastD (t₀, c₀)).2)⟩, []) ∧
        lookupJs cache' d = some (es.getLastD (t₀, c₀)).2 := by
  induction es with
  | nil =>
    intro t₀ c₀ d cache _ hc
    exact ⟨cache, rfl, hc⟩
  | cons p rest ih =>
    obtain ⟨t, c⟩ := p
    intro t₀ c₀ d cache hg hc
    rw [goodEdits] at hg
    simp only [Bool.and_eq_true, decide_eq_true_eq] at hg
    obtain ⟨⟨⟨h1, h2⟩, h3⟩, h4⟩ := hg
    have hnf : ¬(t₀ + 1000 ≤ t) := by omega
    have hch : lookupJs cache d ≠ some c := by
      rw [hc]
      intro hcon
      exact h3 (Option.some.inj hcon).symm
    have hstep : schedStep ⟨t₀, d, cache, some (t₀ + 1000, d, c₀)⟩ (SchedEvent.edit t c) =
        (⟨t, d, insertJs d c cache, some (t + 1000, d, c)⟩, []) := by
      simp [schedStep, fireDue, hnf, hch]
    obtain ⟨cache', hrun, hlook⟩ :=
      ih t c d (insertJs d c cache) h4 (lookupJs_insertJs_self cache d c)
    refine ⟨cache', ?_, by rw [List.getLastD_cons]; exact hlook⟩
    rw [List.map_cons]
    simp only [schedRun]
    rw [hstep]
    simp only [List.getLastD_cons]
    rw [hrun]
    simp

/-- C2: a local edit that changes the active date's cached content cancels
any pending save timer (the state holds at most one) and arms a single
fresh one-second timer capturing the new content; a burst of such edits,
each within one second of its predecessor, issues no save during the burst
and exactly one save — carrying the active date and the final cached
content — once one second elapses after the last edit; in particular the
scenario of typing "Happy day" into the empty 2025-02-14 entry issues
exactly one save `{ date := 2025-02-14, content := "Happy day" }`, not one
per keystroke. -/
theorem autosave_debounce :
    (∀ (st : SchedState) (t : Nat) (c : String),
      lookupJs st.journalCache st.committedDate ≠ some c →
      (st.timer = none ∨ ∃ ft dt ct, st.timer = some (ft, dt, ct) ∧ t < ft) →
      schedStep st (SchedEvent.edit t c) =
        (⟨t, st.committedDate, insertJs st.committedDate c st.journalCache,
          some (t + 1000, st.committedDate, c)⟩, [])) ∧
    (∀ (n₀ t₁ : Nat) (c₁ d : String) (cache : List (String × String))
        (rest : List (Nat × String)) (T : Nat),
      lookupJs cache d ≠ some c₁ →
      goodEdits t₁ c₁ rest = true →
      (rest.getLastD (t₁, c₁)).1 + 1000 ≤ T →
      ∃ stf,
        schedRun ⟨n₀, d, cache, none⟩
            (SchedEvent.edit t₁ c₁ ::
              ((rest.map fun p => SchedEvent.edit p.1 p.2) ++
                [SchedEvent.idleUntil T])) =
          (stf, [(d, (rest.getLastD (t₁, c₁)).2)]) ∧
        lookupJs stf.journalCache d = some (rest.getLastD (t₁, c₁)).2) ∧
    ((schedRun ⟨0, "2025-02-14", [("2025-02-14", "")], some (1000, "2025-02-14", "")⟩
        [SchedEvent.edit 100 "H", SchedEvent.edit 200 "Ha", SchedEvent.edit 300 "Hap",
         SchedEvent.edit 400 "Happ", SchedEvent.edit 500 "Happy",
         SchedEvent.edit 600 "Happy ", SchedEvent.edit 700 "Happy d",
         SchedEvent.edit 800 "Happy da", SchedEvent.edit 900 "Happy day",
         SchedEvent.idleUntil 1900]).2 =
      [("2025-02-14", "Happy day")]) := by
  refine ⟨?_, ?_, by decide⟩
  · intro st t c hch hpend
    obtain ⟨n, cd, cache, timer⟩ := st
    simp only at hch
    rcases hpend with htn | ⟨ft, dt, ct, htimer, hlt⟩
    · simp only at htn
      subst htn
      simp [schedStep, fireDue, hch]
    · simp only at htimer
      subst htimer
      have hnf : ¬(ft ≤ t) := by omega
      simp [schedStep, fireDue, hch, hnf]
  · intro n₀ t₁ c₁ d cache rest T hch hg hT
    have hstep : schedStep ⟨n₀, d, cache, none⟩ (SchedEvent.edit t₁ c₁) =
        (⟨t₁, d, insertJs d c₁ cache, some (t₁ + 1000, d, c₁)⟩, []) := by
      simp [schedStep, fireDue, hch]
    obtain ⟨cache', hrun, hlook⟩ :=
      schedRun_edit_burst rest t₁ c₁ d (insertJs d c₁ cache) hg
        (lookupJs_insertJs_self cache d c₁)
    rcases hL : rest.getLastD (t₁, c₁) with ⟨tl, cl⟩
    rw [hL] at hrun hlook hT
    dsimp only at hrun hlook hT
    refine ⟨⟨T, d, cache', none⟩, ?_, hlook⟩
    dsimp only
    simp only [schedRun]
    rw [hstep]
    rw [schedRun_append (rest.map fun p => SchedEvent.edit p.1 p.2)
      [SchedEvent.idleUntil T]]
    rw [hrun]
    have hidle : schedRun ⟨tl, d, cache', some (tl + 1000, d, cl)⟩
        [SchedEvent.idleUntil T] =
        (⟨T, d, cache', none⟩, [(d, cl)]) := by
      simp [schedRun, schedStep, fireDue, hT]
    rw [hidle]
    simp

/-- Witness for `autosave_debounce`: a first edit from a timerless state
arms a 1-second timer; the two-keystroke burst "H" then "Ha" followed by
idling issues exactly the single save `("2025-02-14", "Ha")`. -/
theorem autosave_debounce_witness :
    schedStep ⟨0, "2025-02-14", [], none⟩ (SchedEvent.edit 100 "H") =
      (⟨100, "2025-02-14", [("2025-02-14", "H")], some (1100, "2025-02-14", "H")⟩, []) ∧
    (schedRun ⟨0, "2025-02-14", [], none⟩
        (SchedEvent.edit 100 "H" ::
          (([(200, "Ha")].map fun p => SchedEvent.edit p.1 p.2) ++
            [SchedEvent.idleUntil 1300]))).2 =
      [("2025-02-14", "Ha")] := by
  constructor
  · exact autosave_debounce.1 ⟨0, "2025-02-14", [], none⟩ 100 "H" (by decide) (Or.inl rfl)
  · obtain ⟨stf, hrun, -⟩ := autosave_debounce.2.1 0 100 "H" "2025-02-14" []
      [(200, "Ha")] 1300 (by decide) (by decide) (by decide)
    rw [hrun]
    rfl

/-! ## C4: switching the committed date -/

theorem fireDue_committedDate (st : SchedState) (t : Nat) :
    (fireDue st t).1.committedDate = st.committedDate := by
  unfold fireDue
  rcases h : st.timer with _ | ⟨ft, dt, ct⟩
  · rfl
  · by_cases hle : ft ≤ t <;> simp [hle]

theorem fireDue_journalCache (st : SchedState) (t : Nat) :
    (fireDue st t).1.journalCache = st.journalCache := by
  unfold fireDue
  rcases h : st.timer with _ | ⟨ft, dt, ct⟩
  · rfl
  · by_cases hle : ft ≤ t <;> simp [hle]

theorem fireDue_timer_sub (st : SchedState) (t : Nat) (ft' : Nat) (dt' ct' : String)
    (h : (fireDue st t).1.timer = some (ft', dt', ct')) :
    st.timer = some (ft', dt', ct') := by
  unfold fireDue at h
  rcases hT : st.timer with _ | ⟨ft, dt, ct⟩ <;> rw [hT] at h <;> dsimp only at h
  · exact absurd h (by simp)
  · by_cases hle : ft ≤ t
    · rw [if_pos hle] at h
      dsimp only at h
      exact absurd h (by simp)
    · rw [if_neg hle] at h
      dsimp only at h
      exact h

theorem fireDue_noTimerFor (d : String) (st : SchedState) (t : Nat)
    (hnt : noTimerFor d st) : noTimerFor d (fireDue st t).1 :=
  fun ft' dt' ct' h' => hnt ft' dt' ct' (fireDue_timer_sub st t ft' dt' ct' h')

theorem fireDue_out (d : String) (st : SchedState) (t : Nat)
    (hnt : noTimerFor d st) : ∀ p ∈ (fireDue st t).2, p.1 ≠ d := by
  unfold fireDue
  rcases h : st.timer with _ | ⟨ft, dt, ct⟩ <;> dsimp only
  · simp
  · by_cases hle : ft ≤ t
    · rw [if_pos hle]
      intro p hp
      have hpd : p = (dt, ct) := by simpa using hp
      rw [hpd]
      exact hnt ft dt ct h
    · rw [if_neg hle]
      simp

theorem autosaveRemount_committedDate (st : SchedState) :
    (autosaveRemount st).committedDate = st.committedDate := by
  unfold autosaveRemount
  rcases h : lookupJs st.journalCache st.committedDate with _ | cv <;> rfl

theorem autosaveRemount_timer_date (st : SchedState) (ft : Nat) (dt ct : String)
    (h : (autosaveRemount st).timer = some (ft, dt, ct)) : dt = st.committedDate := by
  unfold autosaveRemount at h
  rcases hl : lookupJs st.journalCache st.committedDate with _ | cv <;> rw [hl] at h
  · exact absurd h (by simp)
  · have h'' : some (st.now + 1000, st.committedDate, cv) = some (ft, dt, ct) := h
    exact (congrArg (fun p : Nat × String × String => p.2.1) (Option.some.inj h'')).symm

theorem schedStep_no_save (d : String) (st : SchedState) (e : SchedEvent)
    (hcd : st.committedDate ≠ d) (hnt : noTimerFor d st) (hav : avoidsSwitchTo d e) :
    (schedStep st e).1.committedDate ≠ d ∧ noTimerFor d (schedStep st e).1 ∧
    ∀ p ∈ (schedStep st e).2, p.1 ≠ d := by
  have hcd₁ : ∀ t : Nat, (fireDue st t).1.committedDate ≠ d := fun t => by
    rw [fireDue_committedDate]
    exact hcd
  cases e with
  | edit t c =>
    by_cases hch : lookupJs (fireDue st t).1.journalCache
        (fireDue st t).1.committedDate ≠ some c
    · refine ⟨?_, ?_, ?_⟩
      · show (schedStep st (SchedEvent.edit t c)).1.committedDate ≠ d
        simp only [schedStep]
        rw [if_pos hch]
        exact hcd₁ t
      · show noTimerFor d (schedStep st (SchedEvent.edit t c)).1
        simp only [schedStep]
        rw [if_pos hch]
        intro ft' dt' ct' h'
        have h'' : some (t + 1000, (fireDue st t).1.committedDate, c) =
            some (ft', dt', ct') := h'
        have hdt : dt' = (fireDue st t).1.committedDate :=
          (congrArg (fun p : Nat × String × String => p.2.1)
            (Option.some.inj h'')).symm
        rw [hdt]
        exact hcd₁ t
      · exact fireDue_out d st t hnt
    · refine ⟨?_, ?_, ?_⟩
      · show (schedStep st (SchedEvent.edit t c)).1.committedDate ≠ d
        simp only [schedStep]
        rw [if_neg hch]
        exact hcd₁ t
      · show noTimerFor d (schedStep st (SchedEvent.edit t c)).1
        simp only [schedStep]
        rw [if_neg hch]
        intro ft' dt' ct' h'
        exact fireDue_noTimerFor d st t hnt ft' dt' ct' h'
      · exact fireDue_out d st t hnt
  | switchDate t d' =>
    have hne : d' ≠ d := hav
    by_cases hsame : d' = (fireDue st t).1.committedDate
    · refine ⟨?_, ?_, fireDue_out d st t hnt⟩
      · show (schedStep st (SchedEvent.switchDate t d')).1.committedDate ≠ d
        simp only [schedStep]
        rw [if_pos hsame]
        exact hcd₁ t
      · show noTimerFor d (schedStep st (SchedEvent.switchDate t d')).1
        simp only [schedStep]
        rw [if_pos hsame]
        exact fireDue_noTimerFor d st t hnt
    · refine ⟨?_, ?_, fireDue_out d st t hnt⟩
      · show (schedStep st (SchedEvent.switchDate t d')).1.committedDate ≠ d
        simp only [schedStep]
        rw [if_neg hsame]
        rw [autosaveRemount_committedDate]
        exact hne
      · show noTimerFor d (schedStep st (SchedEvent.switchDate t d')).1
        simp only [schedStep]
        rw [if_neg hsame]
        intro ft' dt' ct' h'
        have hdt := autosaveRemount_timer_date _ _ _ _ h'
        subst hdt
        exact hne
  | remoteSet t dte c =>
    by_cases hch : dte = (fireDue st t).1.committedDate ∧
        lookupJs (fireDue st t).1.journalCache dte ≠ some c
    · refine ⟨?_, ?_, fireDue_out d st t hnt⟩
      · show (schedStep st (SchedEvent.remoteSet t dte c)).1.committedDate ≠ d
        simp only [schedStep]
        rw [if_pos hch]
        exact hcd₁ t
      · show noTimerFor d (schedStep st (SchedEvent.remoteSet t dte c)).1
        simp only [schedStep]
        rw [if_pos hch]
        intro ft' dt' ct' h'
        have h'' : some (t + 1000, dte, c) = some (ft', dt', ct') := h'
        have hdt : dt' = dte :=
          (congrArg (fun p : Nat × String × String => p.2.1)
            (Option.some.inj h'')).symm
        rw [hdt, hch.1]
        exact hcd₁ t
    · refine ⟨?_, ?_, fireDue_out d st t hnt⟩
      · show (schedStep st (SchedEvent.remoteSet t dte c)).1.committedDate ≠ d
        simp only [schedStep]
        rw [if_neg hch]
        exact hcd₁ t
      · show noTimerFor d (schedStep st (SchedEvent.remoteSet t dte c)).1
        simp only [schedStep]
        rw [if_neg hch]
        intro ft' dt' ct' h'
        exact fireDue_noTimerFor d st t hnt ft' dt' ct' h'
  | idleUntil t =>
    exact ⟨hcd₁ t, fireDue_noTimerFor d st t hnt, fireDue_out d st t hnt⟩

theorem schedRun_no_save (d : String) (evs : List SchedEvent) :
    ∀ st : SchedState, st.committedDate ≠ d → noTimerFor d st →
      (∀ e ∈ evs, avoidsSwitchTo d e) →
      ((schedRun st evs).1.committedDate ≠ d ∧ noTimerFor d (schedRun st evs).1 ∧
        ∀ p ∈ (schedRun st evs).2, p.1 ≠ d) := by
  induction evs with
  | nil =>
    intro st h1 h2 _
    exact ⟨h1, h2, by simp [schedRun]⟩
  | cons e rest ih =>
    intro st h1 h2 hav
    have hstep := schedStep_no_save d st e h1 h2 (hav e (List.mem_cons_self e rest))
    have hrest := ih (schedStep st e).1 hstep.1 hstep.2.1
      (fun e' he' => hav e' (List.mem_cons_of_mem e he'))
    refine ⟨hrest.1, hrest.2.1, ?_⟩
    intro p hp
    have hp' : p ∈ (schedStep st e).2 ++ (schedRun (schedStep st e).1 rest).2 := hp
    rcases List.mem_append.mp hp' with hmem | hmem
    · exact hstep.2.2 p hmem
    · exact hrest.2.2 p hmem

/-- C4: with date `d` active and cached, switching the committed date to a
different date `d'` issues no save at all (the pending debounce timer, not
yet due, is cancelled and replaced by one targeting `d'`), and every save
issued by any subsequent event sequence that never switches back to `d`
carries a date different from `d` — so the switch never causes a save
request for `d`. -/
theorem switch_no_save_for_old_date (st : SchedState) (d d' : String) (t : Nat)
    (c : String) (evs : List SchedEvent)
    (hactive : st.committedDate = d)
    (hcached : lookupJs st.journalCache d = some c)
    (hne : d' ≠ d)
    (hpend : st.timer = none ∨ ∃ ft dt ct, st.timer = some (ft, dt, ct) ∧ t < ft)
    (havoid : ∀ e ∈ evs, avoidsSwitchTo d e) :
    (schedStep st (SchedEvent.switchDate t d')).2 = [] ∧
    (schedStep st (SchedEvent.switchDate t d')).1.committedDate = d' ∧
    noTimerFor d (schedStep st (SchedEvent.switchDate t d')).1 ∧
    ∀ p ∈ (schedRun (schedStep st (SchedEvent.switchDate t d')).1 evs).2, p.1 ≠ d := by
  have hfire : fireDue st t = ({ st with now := t }, []) := by
    rcases hpend with htn | ⟨ft, dt, ct, htimer, hlt⟩
    · simp [fireDue, htn]
    · have hnf : ¬(ft ≤ t) := by omega
      simp [fireDue, htimer, hnf]
  have hcnd : ¬(d' = ({ st with now := t } : SchedState).committedDate) :=
    fun h => hne (h.trans hactive)
  have hstep : schedStep st (SchedEvent.switchDate t d') =
      (autosaveRemount { st with now := t, committedDate := d' }, []) := by
    simp only [schedStep]
    rw [hfire]
    rw [if_neg hcnd]
  rw [hstep]
  have hcd' : (autosaveRemount
      ({ st with now := t, committedDate := d' } : SchedState)).committedDate = d' :=
    autosaveRemount_committedDate _
  have hnt : noTimerFor d (autosaveRemount
      ({ st with now := t, committedDate := d' } : SchedState)) := by
    intro ft' dt' ct' h'
    have hdt := autosaveRemount_timer_date _ _ _ _ h'
    subst hdt
    exact hne
  have hrun := schedRun_no_save d evs
    (autosaveRemount ({ st with now := t, committedDate := d' } : SchedState))
    (by rw [hcd']; exact hne) hnt havoid
  exact ⟨rfl, hcd', hnt, hrun.2.2⟩

/-- Witness for `switch_no_save_for_old_date`: 2025-02-14 is cached with a
pending timer; switching to 2025-02-15 at t = 500 emits nothing and makes
2025-02-15 the committed date. -/
theorem switch_no_save_witness :
    (schedStep ⟨0, "2025-02-14", [("2025-02-14", "X")], some (1000, "2025-02-14", "X")⟩
        (SchedEvent.switchDate 500 "2025-02-15")).2 = [] ∧
    (schedStep ⟨0, "2025-02-14", [("2025-02-14", "X")], some (1000, "2025-02-14", "X")⟩
        (SchedEvent.switchDate 500 "2025-02-15")).1.committedDate = "2025-02-15" := by
  have h := switch_no_save_for_old_date
    ⟨0, "2025-02-14", [("2025-02-14", "X")], some (1000, "2025-02-14", "X")⟩
    "2025-02-14" "2025-02-15" 500 "X"
    [SchedEvent.edit 600 "hello", SchedEvent.idleUntil 5000]
    rfl (by decide) (by decide)
    (Or.inr ⟨1000, "2025-02-14", "X", rfl, by decide⟩)
    (by
      intro e he
      rcases he with _ | ⟨_, he⟩
      · exact trivial
      · rcases he with _ | ⟨_, he⟩
        · exact trivial
        · cases he)
  exact ⟨h.1, h.2.1⟩

end ValentinesBook
